import Mathlib

/-!
Verification of the scity media service (`src/main.py`).

The service locates a time-segmented video for a camera given a target
timestamp: `get_video` parses the target, lists storage keys under the
prefix `<camera>/<YYYY-MM-DD>/`, selects the key whose basename
(`HHMMSS.mp4`) matches the target exactly or is the greatest one at or
below it, and streams the object; `list_videos` returns the sorted
listing for a day; `generate_stream` relays the object's bytes in
chunks, dropping empty chunks.

Modelling conventions:
* A Python `str` is modelled as its sequence of Unicode code points,
  `PyStr := List Nat`; Python's lexicographic string comparison `<=` is
  `pyLe`.
* The storage collaborator's `list_objects_v2` result is passed in as the
  list of keys under the requested prefix (an empty list corresponds to a
  response without a `Contents` field); `get_object` bodies are passed to
  the relay as the list of chunks its `iter_chunks` yields.
* Fallible steps return `Option`; HTTP responses are inductive types
  labelled with their status codes.
-/

namespace MediaService

/-- A Python string, as its list of Unicode code points. -/
abbrev PyStr := List Nat

/-- Code points of a Lean string literal, for writing concrete Python
strings (`47` is the slash, `46` the dot, `48`–`57` the digits). -/
def str (s : String) : PyStr := s.data.map Char.toNat

/-- Python string comparison `a <= b`: lexicographic on code points. -/
def pyLe : PyStr → PyStr → Bool
  | [], _ => true
  | _ :: _, [] => false
  | a :: as, b :: bs => if a < b then true else if a = b then pyLe as bs else false

/-- Relation form of `pyLe`, for use with the sorting library. -/
def pyLeP (a b : PyStr) : Prop := pyLe a b = true

instance : DecidableRel pyLeP := by unfold pyLeP; infer_instance

/-- Python `sorted` on a list of strings: the ascending reordering under
`pyLe`.  Since `pyLe` is total, transitive and antisymmetric, every correct
sort of a given list produces the same output, so insertion sort models
CPython's Timsort exactly. -/
def pysorted (l : List PyStr) : List PyStr := l.insertionSort pyLeP

/-- Python `os.path.basename`: the text after the last slash (code point 47). -/
def basename (s : PyStr) : PyStr := (s.reverse.takeWhile (fun c => c != 47)).reverse

/-- Python `s.endswith(suf)`. -/
def endsWith (s suf : PyStr) : Bool := suf.isSuffixOf s

/-- The parsed value of `datetime.datetime.strptime(s, "%Y-%m-%d_%H:%M:%S")`:
one calendar date plus one time of day (`src/main.py` line 81 as intended). -/
structure Timestamp where
  year : Nat
  month : Nat
  day : Nat
  hour : Nat
  minute : Nat
  second : Nat
deriving DecidableEq

/-- A time of day, the part of a `Timestamp` a segment basename encodes. -/
structure Tod where
  h : Nat
  m : Nat
  s : Nat
deriving DecidableEq

/-- The time of day of a parsed timestamp. -/
def todOf (t : Timestamp) : Tod := ⟨t.hour, t.minute, t.second⟩

/-- A valid 24-hour time of day. -/
def Tod.valid (t : Tod) : Prop := t.h < 24 ∧ t.m < 60 ∧ t.s < 60

instance (t : Tod) : Decidable t.valid := by unfold Tod.valid; infer_instance

/-- Seconds-of-day style comparison key `HHMMSS` as a number. -/
def Tod.toN (t : Tod) : Nat := t.h * 10000 + t.m * 100 + t.s

/-- Two-digit zero-padded decimal rendering (strftime `%H`, `%M`, `%S`,
`%m`, `%d`; the rendered fields are all below 100). -/
def pad2 (n : Nat) : PyStr := [48 + n / 10 % 10, 48 + n % 10]

/-- Four-digit zero-padded decimal rendering (strftime `%Y`). -/
def pad4 (n : Nat) : PyStr :=
  [48 + n / 1000 % 10, 48 + n / 100 % 10, 48 + n / 10 % 10, 48 + n % 10]

/-- Rendering `input_time.strftime("%Y-%m-%d")` (`src/main.py` line 93); 45 is the dash. -/
def dateStr (t : Timestamp) : PyStr := pad4 t.year ++ [45] ++ pad2 t.month ++ [45] ++ pad2 t.day

/-- The derived storage prefix `f"{camera}/{date_str}/"` (`src/main.py` line 94). -/
def prefixFor (camera : PyStr) (t : Timestamp) : PyStr :=
  camera ++ [47] ++ dateStr t ++ [47]

/-- The basename rendered for a time of day: `HHMMSS` plus `".mp4"`. -/
def bnTod (t : Tod) : PyStr := pad2 t.h ++ pad2 t.m ++ pad2 t.s ++ str ".mp4"

/-- Rendering `target_name = input_time.strftime("%H%M%S") + ".mp4"` (`src/main.py` line 107). -/
def targetName (t : Timestamp) : PyStr := bnTod (todOf t)

/-- The selection logic of `get_video` (`src/main.py` lines 104–120): sort the
listed keys; if the target basename occurs among their basenames take the
first sorted key that merely ends with it, otherwise walk the sorted keys in
reverse and take the first whose basename compares `<=` the target basename.
In the exact branch the Python code indexes `[0]` into the filtered list; that
list is provably non-empty whenever the branch is taken (the membership
witness itself passes the filter), so `head?` models it faithfully. -/
def selectFile (keys : List PyStr) (target_name : PyStr) : Option PyStr :=
  let file_list := pysorted keys
  if target_name ∈ file_list.map basename then
    (file_list.filter (fun f => endsWith f target_name)).head?
  else
    (pysorted file_list).reverse.find? (fun f => pyLe (basename f) target_name)

/-- Responses of the `get_video` handler, labelled by HTTP status. -/
inductive GetResponse where
  /-- HTTP 400 with a JSON error body. -/
  | badRequest (msg : PyStr)
  /-- HTTP 404 with a JSON error body. -/
  | notFound (msg : PyStr)
  /-- HTTP 200 streaming response of the object at `key`. -/
  | stream (key : PyStr)
  /-- HTTP 500 with a JSON error body. -/
  | serverError (msg : PyStr)
deriving DecidableEq

/-- Body of the 400 response: the invalid-datetime-format error message. -/
def invalidMsg : PyStr := str "Invalid datetime format. Use YYYY-MM-DD_HH:MM:SS"

/-- Body of the 404 response naming the derived prefix. -/
def noFilesMsg (pfx : PyStr) : PyStr := str "No files found for " ++ pfx

/-- Body of the 404 response naming the raw target string. -/
def noMatchMsg (dtArg : PyStr) : PyStr := str "No matching video found for " ++ dtArg

/-- The body of `get_video` after a successful parse (`src/main.py` lines
89–134), as a function of the raw query string `dtArg`, the camera, the
parsed time, and the keys the storage collaborator lists under the derived
prefix.  An empty listing is the `"Contents" not in objects` branch.  The
final guard models Python's `if not selected_file`, which is also taken when
the selected key is the empty string. -/
def get_video_core (dtArg camera : PyStr) (input_time : Timestamp)
    (listing : List PyStr) : GetResponse :=
  if listing = [] then
    .notFound (noFilesMsg (prefixFor camera input_time))
  else
    match selectFile listing (targetName input_time) with
    | none => .notFound (noMatchMsg dtArg)
    | some k => if k = [] then .notFound (noMatchMsg dtArg) else .stream k

/-- The parse step the handler actually executes (`src/main.py` line 81).
The handler's query parameter is named `datetime`, which shadows the
imported `datetime` module inside the function body, so the expression
`datetime.datetime.strptime(datetime, "%Y-%m-%d_%H:%M:%S")` is an attribute
lookup `.datetime` on the caller's *string* argument.  A Python `str` has no
such attribute, so the lookup raises `AttributeError` for every input, the
bare `except` catches it, and no input ever parses: the step is the constant
`none`. -/
def handlerParse (dtArg : PyStr) : Option Timestamp :=
  match dtArg with
  | _ => none

/-- The whole `get_video` handler (`src/main.py` lines 72–141): parse, then
run the core; a failed parse is answered with the 400 invalid-format body. -/
def get_video (dtArg camera : PyStr) (listing : List PyStr) : GetResponse :=
  match handlerParse dtArg with
  | none => .badRequest invalidMsg
  | some t => get_video_core dtArg camera t listing

/-- Responses of the `list_videos` handler, labelled by HTTP status. -/
inductive ListResponse where
  /-- HTTP 200 with JSON body containing the file keys. -/
  | files (keys : List PyStr)
  /-- HTTP 500 with a JSON error body. -/
  | serverError
deriving DecidableEq

/-- HTTP status code of a `list_videos` response. -/
def ListResponse.status : ListResponse → Nat
  | .files _ => 200
  | .serverError => 500

/-- The `list_videos` handler (`src/main.py` lines 144–159): an empty
listing (no `Contents` field) answers with the empty file list, otherwise
the sorted keys are returned. -/
def list_videos (listing : List PyStr) : ListResponse :=
  if listing = [] then .files [] else .files (pysorted listing)

/-- The relay `generate_stream` (`src/main.py` lines 40–44) as a function of the
chunk sequence `obj_body.iter_chunks(chunk_size)` yields: `if chunk:`
re-emits exactly the non-empty chunks, in order. -/
def generate_stream (chunks : List (List Nat)) : List (List Nat) :=
  chunks.filter (fun c => !c.isEmpty)

/-- Is the code point a decimal digit (`0`–`9`)? -/
def isDigit (c : Nat) : Bool := decide (48 ≤ c) && decide (c ≤ 57)

/-- The value of a decimal digit code point, if it is one. -/
def digitVal (c : Nat) : Option Nat := if isDigit c then some (c - 48) else none

/-- Modelled from the spec: the time-of-day half of `decodeBasename` (§4.1),
which is absent from the source — `get_video` only renders `target_name` and
compares strings, it never decodes a listed basename back into a time.
Following the spec's words: combine the six digits into `HHMMSS`; fail if the
input is not six digits or the digits do not form a valid 24-hour time. -/
def decodeTod (digits : PyStr) : Option Tod :=
  match digits with
  | [c1, c2, c3, c4, c5, c6] =>
    (digitVal c1).bind fun a =>
    (digitVal c2).bind fun b =>
    (digitVal c3).bind fun c =>
    (digitVal c4).bind fun d =>
    (digitVal c5).bind fun e =>
    (digitVal c6).bind fun f =>
    if a * 10 + b < 24 ∧ c * 10 + d < 60 ∧ e * 10 + f < 60 then
      some ⟨a * 10 + b, c * 10 + d, e * 10 + f⟩
    else none
  | _ => none

/-- Modelled from the spec: `decodeBasename(calendarDay, basenameWithoutExtension)`
(§4.1), absent from the source.  Combines the calendar day `(year, month, day)`
used to build the prefix with the decoded time of day. -/
def decodeBasename (day : Nat × Nat × Nat) (digits : PyStr) : Option Timestamp :=
  (decodeTod digits).map fun td => ⟨day.1, day.2.1, day.2.2, td.h, td.m, td.s⟩

/-- Strip the four-character `".mp4"` extension from a basename. -/
def stripExt (bn : PyStr) : PyStr := bn.take (bn.length - 4)

/-- Ascending order on index entries by their timestamp comparison key. -/
def todKeyLe (a b : Tod × PyStr) : Prop := a.1.toN ≤ b.1.toN

instance : DecidableRel todKeyLe := by unfold todKeyLe; infer_instance

/-- Modelled from the spec: `SegmentIndex.build` (§4.3), absent from the
source — `get_video` resolves directly over the raw sorted listing and never
filters out unparsable basenames.  Following the spec's words: for each raw
key take the basename; discard it unless it ends with the expected extension;
strip the extension and attempt to decode; keep `(timestamp, key)` on
success, discard silently on failure; sort ascending by timestamp. -/
def buildIndex (rawKeys : List PyStr) : List (Tod × PyStr) :=
  (rawKeys.filterMap fun k =>
    let bn := basename k
    if endsWith bn (str ".mp4") then
      (decodeTod (stripExt bn)).map fun td => (td, k)
    else none).insertionSort todKeyLe

/-- Modelled from the spec: the acceptance condition of `parseTarget` (§4.1)
— only the exact literal shape `YYYY-MM-DD_HH:MM:SS` with in-range numeric
fields (month 1–12, day 1–31, hour ≤ 23, minute ≤ 59, second ≤ 59; the
further per-month calendar restriction is not modelled).  The source's own
parse never gets this far (see `handlerParse`), so the condition is taken
from the spec's words.  Code point 45 is the dash, 95 the underscore, 58 the
colon. -/
def wellFormedTarget (s : PyStr) : Bool :=
  match s with
  | [y1, y2, y3, y4, d1, o1, o2, d2, a1, a2, u, h1, h2, c1, i1, i2, c2, e1, e2] =>
    isDigit y1 && isDigit y2 && isDigit y3 && isDigit y4 &&
    (d1 == 45) && isDigit o1 && isDigit o2 && (d2 == 45) &&
    isDigit a1 && isDigit a2 && (u == 95) &&
    isDigit h1 && isDigit h2 && (c1 == 58) && isDigit i1 && isDigit i2 &&
    (c2 == 58) && isDigit e1 && isDigit e2 &&
    decide (1 ≤ (o1 - 48) * 10 + (o2 - 48)) && decide ((o1 - 48) * 10 + (o2 - 48) ≤ 12) &&
    decide (1 ≤ (a1 - 48) * 10 + (a2 - 48)) && decide ((a1 - 48) * 10 + (a2 - 48) ≤ 31) &&
    decide ((h1 - 48) * 10 + (h2 - 48) ≤ 23) &&
    decide ((i1 - 48) * 10 + (i2 - 48) ≤ 59) &&
    decide ((e1 - 48) * 10 + (e2 - 48) ≤ 59)
  | _ => false

theorem pyLe_refl (l : PyStr) : pyLe l l = true := by
  induction l with
  | nil => rfl
  | cons a as ih => simp [pyLe, ih]

theorem pyLe_trans : ∀ a b c : PyStr, pyLe a b = true → pyLe b c = true → pyLe a c = true := by
  intro a
  induction a with
  | nil => intro b c _ _; rfl
  | cons x xs ih =>
    intro b c hab hbc
    cases b with
    | nil => simp [pyLe] at hab
    | cons y ys =>
      cases c with
      | nil => simp [pyLe] at hbc
      | cons z zs =>
        simp only [pyLe] at hab hbc ⊢
        rcases Nat.lt_trichotomy x y with hxy | hxy | hxy
        · rcases Nat.lt_trichotomy y z with hyz | hyz | hyz
          · rw [if_pos (by omega)]
          · subst hyz; rw [if_pos hxy]
          · rw [if_neg (by omega), if_neg (by omega)] at hbc; simp at hbc
        · subst hxy
          rw [if_neg (Nat.lt_irrefl x), if_pos rfl] at hab
          rcases Nat.lt_trichotomy x z with hxz | hxz | hxz
          · rw [if_pos hxz]
          · subst hxz
            rw [if_neg (Nat.lt_irrefl x), if_pos rfl] at hbc ⊢
            exact ih ys zs hab hbc
          · rw [if_neg (by omega), if_neg (by omega)] at hbc; simp at hbc
        · rw [if_neg (by omega), if_neg (by omega)] at hab; simp at hab

theorem pyLe_total (a b : PyStr) : pyLe a b = true ∨ pyLe b a = true := by
  induction a generalizing b with
  | nil => left; rfl
  | cons x xs ih =>
    cases b with
    | nil => right; rfl
    | cons y ys =>
      simp only [pyLe]
      rcases Nat.lt_trichotomy x y with h | h | h
      · left; rw [if_pos h]
      · subst h
        rcases ih ys with hl | hl
        · left; rw [if_neg (Nat.lt_irrefl x), if_pos rfl]; exact hl
        · right; rw [if_neg (Nat.lt_irrefl x), if_pos rfl]; exact hl
      · right; rw [if_pos h]

theorem pyLe_antisymm : ∀ a b : PyStr, pyLe a b = true → pyLe b a = true → a = b := by
  intro a
  induction a with
  | nil =>
    intro b _ hba
    cases b with
    | nil => rfl
    | cons y ys => simp [pyLe] at hba
  | cons x xs ih =>
    intro b hab hba
    cases b with
    | nil => simp [pyLe] at hab
    | cons y ys =>
      simp only [pyLe] at hab hba
      rcases Nat.lt_trichotomy x y with h | h | h
      · rw [if_neg (by omega), if_neg (by omega)] at hba; simp at hba
      · subst h
        rw [if_neg (Nat.lt_irrefl x), if_pos rfl] at hab hba
        rw [ih ys hab hba]
      · rw [if_neg (by omega), if_neg (by omega)] at hab; simp at hab

theorem pyLe_append_left (p a b : PyStr) : pyLe (p ++ a) (p ++ b) = pyLe a b := by
  induction p with
  | nil => rfl
  | cons x xs ih => simp [pyLe, ih]

theorem pysorted_perm (l : List PyStr) : List.Perm (pysorted l) l :=
  List.perm_insertionSort pyLeP l

theorem mem_pysorted {x : PyStr} {l : List PyStr} : x ∈ pysorted l ↔ x ∈ l :=
  (pysorted_perm l).mem_iff

theorem pysorted_pairwise (l : List PyStr) : (pysorted l).Pairwise pyLeP := by
  haveI : IsTotal PyStr pyLeP := ⟨fun a b => pyLe_total a b⟩
  haveI : IsTrans PyStr pyLeP := ⟨fun a b c => pyLe_trans a b c⟩
  exact List.sorted_insertionSort pyLeP l

theorem str_mp4 : str ".mp4" = [46, 109, 112, 52] := by decide

theorem takeWhile_append_cons (P : Nat → Bool) (l1 : PyStr) (x : Nat) (l2 : PyStr)
    (h : ∀ c ∈ l1, P c = true) (hx : P x = false) :
    (l1 ++ x :: l2).takeWhile P = l1 := by
  induction l1 with
  | nil => simp [List.takeWhile_cons, hx]
  | cons a as ih =>
    have ha : P a = true := h a (by simp)
    simp only [List.cons_append, List.takeWhile_cons, ha, if_true]
    rw [ih (fun c hc => h c (by simp [hc]))]

theorem basename_append (q bn : PyStr) (h : ∀ c ∈ bn, c ≠ 47) :
    basename (q ++ 47 :: bn) = bn := by
  unfold basename
  rw [show q ++ 47 :: bn = (q ++ [47]) ++ bn by simp]
  rw [List.reverse_append]
  rw [show List.reverse (q ++ [47]) = 47 :: q.reverse by simp]
  rw [takeWhile_append_cons _ _ 47 _ ?_ (by simp)]
  · exact List.reverse_reverse bn
  · intro c hc
    simp only [List.mem_reverse] at hc
    simpa using h c hc

theorem bnTod_no47 (td : Tod) : ∀ c ∈ bnTod td, c ≠ 47 := by
  intro c hc
  simp only [bnTod, pad2, str_mp4, List.mem_append, List.mem_cons,
    List.not_mem_nil, or_false] at hc
  rcases hc with ((h | h) | (h | h)) | ((h | h) | (h | h | h | h)) <;> omega

theorem bnTod_length (td : Tod) : (bnTod td).length = 10 := by
  simp [bnTod, pad2, str_mp4]

theorem basename_key (camera : PyStr) (T : Timestamp) (td : Tod) :
    basename (prefixFor camera T ++ bnTod td) = bnTod td := by
  rw [show prefixFor camera T ++ bnTod td
      = (camera ++ [47] ++ dateStr T) ++ 47 :: bnTod td by simp [prefixFor]]
  exact basename_append _ _ (bnTod_no47 td)

theorem key_ne_nil (camera : PyStr) (T : Timestamp) (td : Tod) :
    prefixFor camera T ++ bnTod td ≠ [] := by
  intro h
  have := congrArg List.length h
  simp [prefixFor, bnTod, pad2, pad4, dateStr, str_mp4] at this

theorem pyLe_pad2_append (a b : Nat) (ha : a < 100) (hb : b < 100) (u v : PyStr) :
    pyLe (pad2 a ++ u) (pad2 b ++ v) = true ↔ (a < b ∨ (a = b ∧ pyLe u v = true)) := by
  have ha' : a / 10 % 10 = a / 10 := Nat.mod_eq_of_lt (by omega)
  have hb' : b / 10 % 10 = b / 10 := Nat.mod_eq_of_lt (by omega)
  simp only [pad2, ha', hb', List.cons_append, List.nil_append, pyLe]
  rcases Nat.lt_trichotomy (a / 10) (b / 10) with h | h | h
  · rw [if_pos (by omega)]
    simp only [true_iff]
    exact Or.inl (by omega)
  · rw [if_neg (by omega), if_pos (by omega)]
    rcases Nat.lt_trichotomy (a % 10) (b % 10) with h2 | h2 | h2
    · rw [if_pos (by omega)]
      simp only [true_iff]
      exact Or.inl (by omega)
    · rw [if_neg (by omega), if_pos (by omega)]
      have hab : a = b := by omega
      subst hab
      simp
    · rw [if_neg (by omega), if_neg (by omega)]
      constructor
      · intro hf; simp at hf
      · rintro (hlt | ⟨heq, _⟩) <;> omega
  · rw [if_neg (by omega), if_neg (by omega)]
    constructor
    · intro hf; simp at hf
    · rintro (hlt | ⟨heq, _⟩) <;> omega

theorem bnTod_le (t1 t2 : Tod) (h1 : t1.valid) (h2 : t2.valid) :
    pyLe (bnTod t1) (bnTod t2) = true ↔ t1.toN ≤ t2.toN := by
  obtain ⟨hh1, hm1, hs1⟩ := h1
  obtain ⟨hh2, hm2, hs2⟩ := h2
  simp only [bnTod, List.append_assoc]
  rw [pyLe_pad2_append _ _ (by omega) (by omega)]
  rw [pyLe_pad2_append _ _ (by omega) (by omega)]
  rw [pyLe_pad2_append _ _ (by omega) (by omega)]
  simp only [pyLe_refl, and_true]
  unfold Tod.toN
  omega

theorem toN_inj (t1 t2 : Tod) (h1 : t1.valid) (h2 : t2.valid)
    (h : t1.toN = t2.toN) : t1 = t2 := by
  obtain ⟨a1, b1, c1⟩ := t1
  obtain ⟨a2, b2, c2⟩ := t2
  simp only [Tod.valid] at h1 h2
  simp only [Tod.toN] at h
  simp only [Tod.mk.injEq]
  omega

theorem bnTod_inj (t1 t2 : Tod) (h1 : t1.valid) (h2 : t2.valid)
    (h : bnTod t1 = bnTod t2) : t1 = t2 := by
  have hle : pyLe (bnTod t1) (bnTod t2) = true := by rw [h]; exact pyLe_refl _
  have hge : pyLe (bnTod t2) (bnTod t1) = true := by rw [h]; exact pyLe_refl _
  exact toN_inj t1 t2 h1 h2 (Nat.le_antisymm ((bnTod_le t1 t2 h1 h2).1 hle)
    ((bnTod_le t2 t1 h2 h1).1 hge))

theorem endsWith_append_iff (pfx bn tn : PyStr) (hlen : bn.length = tn.length) :
    endsWith (pfx ++ bn) tn = true ↔ bn = tn := by
  unfold endsWith
  rw [List.isSuffixOf_iff_suffix]
  constructor
  · rintro ⟨q, hq⟩
    exact (List.append_inj_right' hq (by omega)).symm
  · rintro rfl
    exact ⟨pfx, rfl⟩

theorem find?_sorted_desc {l : List PyStr} {pred : PyStr → Bool}
    (hs : l.Pairwise (fun a b => pyLe b a = true)) {x : PyStr}
    (hfind : l.find? pred = some x) :
    x ∈ l ∧ pred x = true ∧ ∀ y ∈ l, pred y = true → pyLe y x = true := by
  induction l with
  | nil => simp at hfind
  | cons a as ih =>
    rw [List.pairwise_cons] at hs
    by_cases hpa : pred a = true
    · rw [List.find?_cons_of_pos _ hpa] at hfind
      obtain rfl : a = x := by simpa using hfind
      refine ⟨by simp, hpa, ?_⟩
      intro y hy hpy
      rcases List.mem_cons.1 hy with rfl | hy'
      · exact pyLe_refl _
      · exact hs.1 y hy'
    · rw [List.find?_cons_of_neg _ (by simp [hpa])] at hfind
      obtain ⟨hx, hpx, hmax⟩ := ih hs.2 hfind
      refine ⟨List.mem_cons_of_mem _ hx, hpx, ?_⟩
      intro y hy hpy
      rcases List.mem_cons.1 hy with rfl | hy'
      · exact absurd hpy hpa
      · exact hmax y hy' hpy

theorem selectFile_exact (camera : PyStr) (T : Timestamp) (hT : (todOf T).valid)
    (times : List Tod) (hv : ∀ td ∈ times, td.valid) (hmem : todOf T ∈ times) :
    selectFile (times.map fun td => prefixFor camera T ++ bnTod td) (targetName T)
      = some (prefixFor camera T ++ bnTod (todOf T)) := by
  have hkey : prefixFor camera T ++ bnTod (todOf T)
      ∈ pysorted (times.map fun td => prefixFor camera T ++ bnTod td) :=
    mem_pysorted.2 (List.mem_map_of_mem _ hmem)
  have hmemtest : targetName T
      ∈ (pysorted (times.map fun td => prefixFor camera T ++ bnTod td)).map basename :=
    List.mem_map.2 ⟨_, hkey, basename_key camera T (todOf T)⟩
  simp only [selectFile]
  rw [if_pos hmemtest]
  have hlen : (bnTod (todOf T)).length = (targetName T).length := by
    simp [targetName, bnTod_length]
  have hfmem : prefixFor camera T ++ bnTod (todOf T)
      ∈ (pysorted (times.map fun td => prefixFor camera T ++ bnTod td)).filter
          (fun f => endsWith f (targetName T)) :=
    List.mem_filter.2 ⟨hkey, (endsWith_append_iff _ _ _ hlen).2 rfl⟩
  have hne := List.ne_nil_of_mem hfmem
  have hall : ∀ x ∈ (pysorted (times.map fun td => prefixFor camera T ++ bnTod td)).filter
      (fun f => endsWith f (targetName T)), x = prefixFor camera T ++ bnTod (todOf T) := by
    intro x hx
    obtain ⟨hxl, hxw⟩ := List.mem_filter.1 hx
    obtain ⟨td, htd, rfl⟩ := List.mem_map.1 (mem_pysorted.1 hxl)
    have hbeq : bnTod td = targetName T :=
      (endsWith_append_iff _ _ _ (by simp [targetName, bnTod_length])).1 hxw
    have : td = todOf T := bnTod_inj td (todOf T) (hv td htd) hT hbeq
    rw [this]
  rw [List.head?_eq_head hne]
  exact congrArg some (hall _ (List.head_mem hne))

theorem selectFile_no_exact (camera : PyStr) (T : Timestamp) (hT : (todOf T).valid)
    (times : List Tod) (hv : ∀ td ∈ times, td.valid) (hnot : todOf T ∉ times) :
    ((∀ td ∈ times, ¬ td.toN < (todOf T).toN) →
      selectFile (times.map fun td => prefixFor camera T ++ bnTod td) (targetName T) = none)
  ∧ (∀ u ∈ times, u.toN < (todOf T).toN →
      (∀ td ∈ times, td.toN < (todOf T).toN → td.toN ≤ u.toN) →
      selectFile (times.map fun td => prefixFor camera T ++ bnTod td) (targetName T)
        = some (prefixFor camera T ++ bnTod u)) := by
  have hmemf : targetName T
      ∉ (pysorted (times.map fun td => prefixFor camera T ++ bnTod td)).map basename := by
    intro hc
    obtain ⟨f, hf, hbn⟩ := List.mem_map.1 hc
    obtain ⟨td, htd, rfl⟩ := List.mem_map.1 (mem_pysorted.1 hf)
    rw [basename_key] at hbn
    have : td = todOf T := bnTod_inj td (todOf T) (hv td htd) hT hbn
    exact hnot (this ▸ htd)
  have hrev : ((pysorted (pysorted (times.map fun td => prefixFor camera T ++ bnTod td))).reverse).Pairwise
      (fun a b => pyLe b a = true) := by
    rw [List.pairwise_reverse]
    exact pysorted_pairwise _
  constructor
  · intro h0
    simp only [selectFile]
    rw [if_neg hmemf]
    refine List.find?_eq_none.2 ?_
    intro f hf
    obtain ⟨td, htd, rfl⟩ := List.mem_map.1
      (mem_pysorted.1 (mem_pysorted.1 (List.mem_reverse.1 hf)))
    rw [basename_key]
    intro hc
    have hle := (bnTod_le td (todOf T) (hv td htd) hT).1 hc
    have hne : td ≠ todOf T := fun e => hnot (e ▸ htd)
    have : td.toN ≠ (todOf T).toN := fun e => hne (toN_inj td (todOf T) (hv td htd) hT e)
    exact h0 td htd (by omega)
  · intro u hu hult hmax
    have hpredu : pyLe (basename (prefixFor camera T ++ bnTod u)) (targetName T) = true := by
      rw [basename_key]
      exact (bnTod_le u (todOf T) (hv u hu) hT).2 (Nat.le_of_lt hult)
    have humem : prefixFor camera T ++ bnTod u
        ∈ (pysorted (pysorted (times.map fun td => prefixFor camera T ++ bnTod td))).reverse := by
      rw [List.mem_reverse]
      exact mem_pysorted.2 (mem_pysorted.2 (List.mem_map_of_mem _ hu))
    simp only [selectFile]
    rw [if_neg hmemf]
    cases hfind : ((pysorted (pysorted (times.map fun td => prefixFor camera T ++ bnTod td))).reverse).find?
        (fun f => pyLe (basename f) (targetName T)) with
    | none =>
      have := List.find?_eq_none.1 hfind _ humem
      simp only [hpredu] at this
      exact absurd trivial this
    | some x =>
      obtain ⟨hxmem, hpx, hxmax⟩ := find?_sorted_desc hrev hfind
      have hxkeys : x ∈ times.map fun td => prefixFor camera T ++ bnTod td :=
        mem_pysorted.1 (mem_pysorted.1 (List.mem_reverse.1 hxmem))
      obtain ⟨tx, htx, rfl⟩ : ∃ td ∈ times, x = prefixFor camera T ++ bnTod td := by
        obtain ⟨td, htd, h⟩ := List.mem_map.1 hxkeys
        exact ⟨td, htd, h.symm⟩
      rw [basename_key] at hpx
      have h1 : tx.toN ≤ (todOf T).toN := (bnTod_le tx (todOf T) (hv tx htx) hT).1 hpx
      have hne : tx ≠ todOf T := fun e => hnot (e ▸ htx)
      have h1' : tx.toN < (todOf T).toN := by
        rcases Nat.lt_or_ge tx.toN (todOf T).toN with h | h
        · exact h
        · exact absurd (toN_inj tx (todOf T) (hv tx htx) hT (by omega)) hne
      have h2 : tx.toN ≤ u.toN := hmax tx htx h1'
      have h3 : pyLe (prefixFor camera T ++ bnTod u) (prefixFor camera T ++ bnTod tx) = true :=
        hxmax _ humem hpredu
      rw [pyLe_append_left] at h3
      have h4 : u.toN ≤ tx.toN := (bnTod_le u tx (hv u hu) (hv tx htx)).1 h3
      have : tx = u := toN_inj tx u (hv tx htx) (hv u hu) (by omega)
      rw [this]

/-- C1: over a one-camera/one-day index of valid segment times, the
EXACT_OR_BEFORE resolution of `get_video` streams the key whose timestamp
equals the target when one exists; otherwise it streams the key with the
greatest timestamp strictly below the target; and when no entry is at or
below the target it answers 404 NotFound. -/
theorem get_video_exact_or_before (dtArg camera : PyStr) (T : Timestamp)
    (hT : (todOf T).valid) (times : List Tod) (hv : ∀ td ∈ times, td.valid) :
    (todOf T ∈ times →
      get_video_core dtArg camera T (times.map fun td => prefixFor camera T ++ bnTod td)
        = .stream (prefixFor camera T ++ bnTod (todOf T)))
  ∧ (todOf T ∉ times →
      ((∀ td ∈ times, ¬ td.toN < (todOf T).toN) →
        ∃ msg, get_video_core dtArg camera T (times.map fun td => prefixFor camera T ++ bnTod td)
          = .notFound msg)
    ∧ (∀ u ∈ times, u.toN < (todOf T).toN →
        (∀ td ∈ times, td.toN < (todOf T).toN → td.toN ≤ u.toN) →
        get_video_core dtArg camera T (times.map fun td => prefixFor camera T ++ bnTod td)
          = .stream (prefixFor camera T ++ bnTod u))) := by
  constructor
  · intro hmem
    have hne : times.map (fun td => prefixFor camera T ++ bnTod td) ≠ [] := by
      simp only [ne_eq, List.map_eq_nil_iff]
      exact List.ne_nil_of_mem hmem
    unfold get_video_core
    rw [if_neg hne, selectFile_exact camera T hT times hv hmem]
    simp [key_ne_nil camera T (todOf T)]
  · intro hnot
    obtain ⟨hnone, hsome⟩ := selectFile_no_exact camera T hT times hv hnot
    constructor
    · intro h0
      by_cases hk : times.map (fun td => prefixFor camera T ++ bnTod td) = []
      · exact ⟨_, by unfold get_video_core; rw [if_pos hk]⟩
      · refine ⟨noMatchMsg dtArg, ?_⟩
        unfold get_video_core
        rw [if_neg hk, hnone h0]
    · intro u hu hult hmax
      have hne : times.map (fun td => prefixFor camera T ++ bnTod td) ≠ [] := by
        simp only [ne_eq, List.map_eq_nil_iff]
        exact List.ne_nil_of_mem hu
      unfold get_video_core
      rw [if_neg hne, hsome u hu hult hmax]
      simp [key_ne_nil camera T u]

/-- Witness for C1: on the index with entries at 10:00:00, 11:00:00 and
12:00:00, target 11:30:00 streams the 11:00:00 segment, target 09:00:00
answers 404, and target 11:00:00 streams the 11:00:00 segment itself. -/
theorem get_video_exact_or_before_witness :
    get_video_core (str "2025-01-01_11:30:00") (str "cam01") ⟨2025, 1, 1, 11, 30, 0⟩
        ([⟨10, 0, 0⟩, ⟨11, 0, 0⟩, ⟨12, 0, 0⟩].map fun td =>
          prefixFor (str "cam01") ⟨2025, 1, 1, 11, 30, 0⟩ ++ bnTod td)
      = .stream (prefixFor (str "cam01") ⟨2025, 1, 1, 11, 30, 0⟩ ++ bnTod ⟨11, 0, 0⟩)
  ∧ (∃ msg, get_video_core (str "2025-01-01_09:00:00") (str "cam01") ⟨2025, 1, 1, 9, 0, 0⟩
        ([⟨10, 0, 0⟩, ⟨11, 0, 0⟩, ⟨12, 0, 0⟩].map fun td =>
          prefixFor (str "cam01") ⟨2025, 1, 1, 9, 0, 0⟩ ++ bnTod td)
      = .notFound msg)
  ∧ get_video_core (str "2025-01-01_11:00:00") (str "cam01") ⟨2025, 1, 1, 11, 0, 0⟩
        ([⟨10, 0, 0⟩, ⟨11, 0, 0⟩, ⟨12, 0, 0⟩].map fun td =>
          prefixFor (str "cam01") ⟨2025, 1, 1, 11, 0, 0⟩ ++ bnTod td)
      = .stream (prefixFor (str "cam01") ⟨2025, 1, 1, 11, 0, 0⟩ ++ bnTod ⟨11, 0, 0⟩) := by
  refine ⟨?_, ?_, ?_⟩
  · exact ((get_video_exact_or_before _ _ _ (by decide) _ (by decide)).2
      (by decide)).2 ⟨11, 0, 0⟩ (by decide) (by decide) (by decide)
  · exact ((get_video_exact_or_before _ _ _ (by decide) _ (by decide)).2
      (by decide)).1 (by decide)
  · exact (get_video_exact_or_before _ _ _ (by decide) _ (by decide)).1 (by decide)

/-- C2 (code bug): the string 2025-01-01_11:00:00 is exactly of the literal
form YYYY-MM-DD_HH:MM:SS with in-range fields, yet the handler still answers
400 "Invalid datetime format" for it (for any camera and any listing),
because its parameter named datetime shadows the datetime module. -/
theorem get_video_rejects_wellformed_target :
    wellFormedTarget (str "2025-01-01_11:00:00") = true
  ∧ ∀ camera listing, get_video (str "2025-01-01_11:00:00") camera listing
      = .badRequest invalidMsg :=
  ⟨by decide, fun _ _ => rfl⟩

/-- C3: for every input string, camera and listing, `get_video` answers 400
with the invalid-datetime-format message and never consults the storage
listing: the `datetime` parameter shadows the `datetime` module, so the
parse expression raises inside the try-block on every input. -/
theorem get_video_always_invalid (dtArg camera : PyStr) (listing : List PyStr) :
    get_video dtArg camera listing = .badRequest invalidMsg := rfl

/-- C4 counterexample: the raw listing is not filtered by parsability — the
spec-modelled index construction discards the unparsable key
cam01/2025-01-01/0abc.mp4 (index size 0, so EXACT_OR_BEFORE over the index
would answer NotFound), yet the code's resolution selects and streams that
very key for target 11:30:00. -/
theorem raw_listing_no_discard_counterexample :
    buildIndex [str "cam01/2025-01-01/0abc.mp4"] = []
  ∧ get_video_core (str "2025-01-01_11:30:00") (str "cam01") ⟨2025, 1, 1, 11, 30, 0⟩
      [str "cam01/2025-01-01/0abc.mp4"]
      = .stream (str "cam01/2025-01-01/0abc.mp4") :=
  ⟨by decide, by decide⟩

/-- C4 amended: the spec-modelled index construction keeps exactly the
parsable keys — the listing with `abc.mp4` alongside two valid basenames
yields an index of size 2 — and the code's resolution over that raw listing
does not fail and picks the correct 11:00:00 segment for target 11:30:00
(`abc.mp4` compares above every digit-leading target basename); but the code
itself never discards unparsable keys, and one that compares at or below the
target can be selected (see the counterexample). -/
theorem index_discards_unparsable_amended :
    buildIndex [str "cam01/2025-01-01/abc.mp4", str "cam01/2025-01-01/100000.mp4",
        str "cam01/2025-01-01/110000.mp4"]
      = [(⟨10, 0, 0⟩, str "cam01/2025-01-01/100000.mp4"),
         (⟨11, 0, 0⟩, str "cam01/2025-01-01/110000.mp4")]
  ∧ get_video_core (str "2025-01-01_11:30:00") (str "cam01") ⟨2025, 1, 1, 11, 30, 0⟩
      [str "cam01/2025-01-01/abc.mp4", str "cam01/2025-01-01/100000.mp4",
       str "cam01/2025-01-01/110000.mp4"]
      = .stream (str "cam01/2025-01-01/110000.mp4") :=
  ⟨by decide, by decide⟩

/-- C5: `get_video` distinguishes the two not-found outcomes — an empty
listing under the derived prefix answers 404 naming the prefix, and a
non-empty listing in which no basename compares at or below the target
basename answers 404 naming the target string. -/
theorem get_video_not_found_kinds (dtArg camera : PyStr) (T : Timestamp)
    (listing : List PyStr) :
    (listing = [] →
      get_video_core dtArg camera T listing = .notFound (noFilesMsg (prefixFor camera T)))
  ∧ (listing ≠ [] →
      (∀ k ∈ listing, pyLe (basename k) (targetName T) = false) →
      get_video_core dtArg camera T listing = .notFound (noMatchMsg dtArg)) := by
  constructor
  · intro h
    unfold get_video_core
    rw [if_pos h]
  · intro hne hall
    unfold get_video_core
    rw [if_neg hne]
    have hmemf : targetName T ∉ (pysorted listing).map basename := by
      intro hc
      obtain ⟨f, hf, hbn⟩ := List.mem_map.1 hc
      have hx := hall f (mem_pysorted.1 hf)
      rw [hbn, pyLe_refl] at hx
      simp at hx
    have hfind : ((pysorted (pysorted listing)).reverse).find?
        (fun f => pyLe (basename f) (targetName T)) = none :=
      List.find?_eq_none.2 (fun f hf => by
        have := hall f (mem_pysorted.1 (mem_pysorted.1 (List.mem_reverse.1 hf)))
        simp [this])
    simp only [selectFile]
    rw [if_neg hmemf, hfind]

/-- Witness for C5: the empty listing yields the prefix-naming 404, and a
listing whose only basename (12:00:00) lies above the 11:00:00 target yields
the target-naming 404. -/
theorem get_video_not_found_kinds_witness :
    get_video_core (str "2025-01-01_11:00:00") (str "cam01") ⟨2025, 1, 1, 11, 0, 0⟩ []
      = .notFound (noFilesMsg (prefixFor (str "cam01") ⟨2025, 1, 1, 11, 0, 0⟩))
  ∧ get_video_core (str "2025-01-01_11:00:00") (str "cam01") ⟨2025, 1, 1, 11, 0, 0⟩
      [str "cam01/2025-01-01/120000.mp4"]
      = .notFound (noMatchMsg (str "2025-01-01_11:00:00")) :=
  ⟨(get_video_not_found_kinds _ _ _ _).1 rfl,
   (get_video_not_found_kinds _ _ _ _).2 (by decide) (by decide)⟩

/-- C6: with no objects under the derived prefix, `list_videos` answers
HTTP 200 with the empty file list, and no `list_videos` response ever
carries status 404. -/
theorem list_videos_empty_is_ok :
    list_videos [] = .files []
  ∧ (list_videos []).status = 200
  ∧ ∀ listing : List PyStr, (list_videos listing).status ≠ 404 := by
  refine ⟨rfl, rfl, ?_⟩
  intro listing
  unfold list_videos
  split_ifs <;> simp [ListResponse.status]

/-- C7: `list_videos` returns all listed keys sorted ascending by the full
key text under Python's lexicographic order (a permutation of the listing,
pairwise `pyLe`-ordered), with no target parameter consulted; in particular
the listing [b, a, c] yields [a, b, c]. -/
theorem list_videos_sorted_all (listing : List PyStr) :
    list_videos listing = .files (pysorted listing)
  ∧ List.Perm (pysorted listing) listing
  ∧ (pysorted listing).Pairwise pyLeP
  ∧ list_videos [str "b", str "a", str "c"] = .files [str "a", str "b", str "c"] := by
  refine ⟨?_, pysorted_perm listing, pysorted_pairwise listing, by decide⟩
  unfold list_videos
  split_ifs with h
  · subst h
    rfl
  · rfl

/-- C8: the stream relay emits exactly the non-empty chunks of its source
in order; when every source chunk is at most `chunkSize` bytes (the
`iter_chunks` contract, default 8192), so is every emitted chunk; and the
concatenation of emitted chunks equals the concatenation of source chunks. -/
theorem generate_stream_relay (chunks : List (List Nat)) (chunkSize : Nat)
    (hsrc : ∀ c ∈ chunks, c.length ≤ chunkSize) :
    generate_stream chunks = chunks.filter (fun c => !c.isEmpty)
  ∧ (∀ c ∈ generate_stream chunks, c ≠ [] ∧ c.length ≤ chunkSize)
  ∧ (generate_stream chunks).flatten = chunks.flatten := by
  refine ⟨rfl, ?_, ?_⟩
  · intro c hc
    obtain ⟨hcm, hne⟩ := List.mem_filter.1 hc
    refine ⟨?_, hsrc c hcm⟩
    intro hnil
    subst hnil
    simp at hne
  · exact List.flatten_filter_not_isEmpty

/-- Witness for C8: the source [x, "", y] is relayed as exactly [x, y] with
the byte concatenation preserved. -/
theorem generate_stream_relay_witness :
    generate_stream [[120], [], [121]] = [[120], [121]]
  ∧ (generate_stream [[120], [], [121]]).flatten = [[120], [], [121]].flatten := by
  have h := generate_stream_relay [[120], [], [121]] 8192 (by decide)
  exact ⟨h.1.trans (by decide), h.2.2⟩

/-- C10: the exact-match branch tests membership of the target basename
among the listing's basenames but then selects by a mere ends-with check on
the full key: with basename 1113000.mp4 (which has the target basename
113000.mp4 as a proper suffix) sorting before the true exact match, the
returned key is not the key whose basename equals the target. -/
theorem exact_branch_suffix_mismatch :
    targetName ⟨2025, 1, 1, 11, 30, 0⟩ = str "113000.mp4"
  ∧ selectFile [str "cam01/2025-01-01/1113000.mp4", str "cam01/2025-01-01/113000.mp4"]
      (targetName ⟨2025, 1, 1, 11, 30, 0⟩)
      = some (str "cam01/2025-01-01/1113000.mp4")
  ∧ basename (str "cam01/2025-01-01/1113000.mp4") ≠ targetName ⟨2025, 1, 1, 11, 30, 0⟩
  ∧ basename (str "cam01/2025-01-01/113000.mp4") = targetName ⟨2025, 1, 1, 11, 30, 0⟩ :=
  ⟨by decide, by decide, by decide, by decide⟩

theorem digitVal_digit (d : Nat) (hd : d < 10) : digitVal (48 + d) = some d := by
  unfold digitVal isDigit
  rw [if_pos]
  · congr 1
    omega
  · simp only [Bool.and_eq_true, decide_eq_true_eq]
    omega

/-- C9: decoding (spec-modelled) the basename rendered for any valid time of
day against any calendar day recovers exactly that time of day, attached to
that day. -/
theorem decode_render_roundtrip (day : Nat × Nat × Nat) (t : Tod) (ht : t.valid) :
    decodeBasename day (stripExt (bnTod t))
      = some ⟨day.1, day.2.1, day.2.2, t.h, t.m, t.s⟩ := by
  obtain ⟨hh, hm, hs⟩ := ht
  have hstrip : stripExt (bnTod t)
      = [48 + t.h / 10 % 10, 48 + t.h % 10, 48 + t.m / 10 % 10, 48 + t.m % 10,
         48 + t.s / 10 % 10, 48 + t.s % 10] := by
    simp [stripExt, bnTod, pad2, str_mp4, List.take]
  rw [hstrip]
  have d1 := digitVal_digit (t.h / 10 % 10) (by omega)
  have d2 := digitVal_digit (t.h % 10) (by omega)
  have d3 := digitVal_digit (t.m / 10 % 10) (by omega)
  have d4 := digitVal_digit (t.m % 10) (by omega)
  have d5 := digitVal_digit (t.s / 10 % 10) (by omega)
  have d6 := digitVal_digit (t.s % 10) (by omega)
  simp only [decodeBasename, decodeTod, d1, d2, d3, d4, d5, d6, Option.some_bind]
  rw [if_pos (by omega)]
  simp only [Option.map_some', Option.some.injEq, Timestamp.mk.injEq, true_and]
  omega

/-- Witness for C9: the 11:30:00 basename decodes back to 11:30:00 on the
day 2025-01-01. -/
theorem decode_render_roundtrip_witness :
    decodeBasename (2025, 1, 1) (stripExt (bnTod ⟨11, 30, 0⟩))
      = some ⟨2025, 1, 1, 11, 30, 0⟩ :=
  decode_render_roundtrip (2025, 1, 1) ⟨11, 30, 0⟩ (by decide)

end MediaService
